import Mathlib

/-!
Shallow embedding of the stdi line-reading library (src/library.c) and proofs
about its three public operations `read_line`, `raw_read_line` and `read_char`.

Modelling conventions:

* A byte is a `Nat` (real stream bytes are < 256).  The C code stores bytes in
  `char` (signed on the target platform) and compares them against the macro
  `EOF = -1`; a byte `b` stored in a signed `char` compares equal to `-1`
  exactly when `b = 255`, so the source test `buffer[i] == EOF` is embedded as
  `b = 255`, and `c == '\0'` as `b = 0`, `== '\n'` as `b = 10`.
* The input stream is a finite `List Nat` of bytes followed by end-of-stream.
* `fread_line(dst, req)` (a raw `read(2)` syscall) is modelled by an oracle
  `List ReadBehavior`: each call consumes one oracle event.  `ReadBehavior.err`
  makes the call return -1; `ReadBehavior.deliver k` makes it deliver
  `min k (min req avail)` bytes from the front of the stream (a short read is
  allowed by the RawRead contract).  When the oracle list is exhausted the
  call delivers `min req avail` bytes (full sequential delivery), which is the
  behavior of a blocking `read` consuming the stream in order; in particular a
  request of 0 bytes returns 0, as `read(fd, buf, 0)` does.
* `malloc`/`realloc` successes are driven by a `List Bool` oracle (`alOk`);
  an exhausted oracle means the allocation succeeds.
* The C functions' local state is threaded explicitly: `buffer` is the list of
  content bytes written so far (its length is the C variable `length`),
  `cap` the current allocation size in bytes, `written` the C variable
  `written`.  The loops are given fuel; running out of fuel yields the
  distinguished outcome `Outcome.outOfFuel` (used to exhibit divergence).
* Instrumentation carried alongside, without influencing control flow:
  `reads` logs each issued read as (offset = length at the call, requested
  size); `reallocs` counts successful `realloc` calls; `live` counts heap
  blocks not yet freed (`malloc`/`realloc` + free discipline transcribed from
  the source); `safe` conjoins an in-bounds check for every store into the
  buffer (content bytes and terminator bytes).
* `size_t` subtraction `STDI_READ_LINE_BUFFER_SIZE - length` is embedded as
  two's-complement subtraction `sub64` modulo 2^64.  Additions in allocation
  sizes cannot overflow for any input considered and are plain `Nat`.
-/

namespace Stdi

/-- Word size of `size_t` on the target platform. -/
def W64 : Nat := 2 ^ 64

/-- Wrapping `size_t` subtraction `a - b` modulo `2^64` (for `a < 2^64`). -/
def sub64 (a b : Nat) : Nat := (a + (W64 - b % W64)) % W64

/-- Default chunk size, `STDI_READ_LINE_BUFFER_SIZE` in src/library.c. -/
def STDI_READ_LINE_BUFFER_SIZE : Nat := 250

/-- Behavior of one `fread_line` call: an I/O failure (-1), or delivery of at
most `k` bytes (capped by the request and by the bytes available). -/
inductive ReadBehavior where
  | deliver (k : Nat)
  | err
deriving DecidableEq

/-- Oracle left after one read call. -/
def obRest (ob : List ReadBehavior) : List ReadBehavior := ob.tail

/-- Result of `fread_line(dst, req)` with `avail` bytes left in the stream:
`none` is a -1 failure, `some d` means `d` bytes were read.  An exhausted
oracle gives full sequential delivery `min req avail`. -/
def freadRes (ob : List ReadBehavior) (avail req : Nat) : Option Nat :=
  match ob with
  | ReadBehavior.err :: _ => none
  | ReadBehavior.deliver k :: _ => some (min k (min req avail))
  | [] => some (min req avail)

/-- Success of the next `malloc`/`realloc` (exhausted oracle: success). -/
def alOk (al : List Bool) : Bool := al.headD true

/-- Allocation oracle left after one allocation call. -/
def alRest (al : List Bool) : List Bool := al.tail

/-- Observable result of a line-reading call. -/
inductive Outcome where
  | line (content : List Nat)
  | nullRes
  | outOfFuel
deriving DecidableEq

/-- Instrumented result of `read_line` / `raw_read_line`. -/
structure RLOut where
  outcome : Outcome
  reads : List (Nat × Nat)
  reallocs : Nat
  live : Nat
  safe : Bool
deriving DecidableEq

/-- The reallocation step shared verbatim by both loops
(src/library.c lines 152-166 and 70-84):
`if (written == STDI_READ_LINE_BUFFER_SIZE) { realloc(buffer, C + length + 1);
written = 0; }`.  `none` is a failed `realloc`; `some` carries the updated
(allocation oracle, capacity, written, realloc count). -/
def reallocStep (C : Nat) (al : List Bool) (buffer : List Nat)
    (cap written ra : Nat) : Option (List Bool × Nat × Nat × Nat) :=
  if written = C then
    if alOk al then some (alRest al, C + buffer.length + 1, 0, ra + 1)
    else none
  else some (al, cap, written, ra)

/-- The read step of `read_line` (src/library.c lines 169-194):
`if (written == 0) { fread_line(buffer + length, C - length); ... }`.
`Sum.inl` is a `return` from the C function; `Sum.inr` carries
(ob, stream, buffer, written, reads log, safe) to the end-of-line check. -/
def readLineRead (C : Nat) (ob : List ReadBehavior) (stream buffer : List Nat)
    (cap1 written1 : Nat) (log : List (Nat × Nat)) (ra1 live : Nat) (safe : Bool) :
    RLOut ⊕ (List ReadBehavior × List Nat × List Nat × Nat × List (Nat × Nat) × Bool) :=
  if written1 = 0 then
    match freadRes ob stream.length (sub64 C buffer.length) with
    | none =>
        -- bytes_read == -1: free(buffer); return NULL
        Sum.inl ⟨Outcome.nullRes, log ++ [(buffer.length, sub64 C buffer.length)],
          ra1, live - 1, safe⟩
    | some d =>
      if d = 0 then
        -- bytes_read == 0: buffer[length] = '\0'; return buffer
        Sum.inl ⟨Outcome.line buffer, log ++ [(buffer.length, sub64 C buffer.length)],
          ra1, live, safe && decide (buffer.length < cap1)⟩
      else
        Sum.inr (obRest ob, stream.drop d, buffer ++ stream.take d,
          written1 + d, log ++ [(buffer.length, sub64 C buffer.length)],
          safe && decide (buffer.length + d ≤ cap1))
  else Sum.inr (ob, stream, buffer, written1, log, safe)

/-- The end-of-line check of `read_line` (src/library.c lines 196-202):
`if (length > 0 && (buffer[length-1] == EOF || buffer[length-1] == '\n'))
{ buffer[length-1] = '\0'; return buffer; }`. -/
def readLineCheck (cap1 : Nat) (al1 : List Bool) (ob2 : List ReadBehavior)
    (stream2 buffer2 : List Nat) (written2 : Nat) (log2 : List (Nat × Nat))
    (ra1 live : Nat) (safe2 : Bool) :
    RLOut ⊕ (List ReadBehavior × List Bool × List Nat × List Nat × Nat × Nat ×
      List (Nat × Nat) × Nat × Nat × Bool) :=
  if buffer2.length ≠ 0 ∧ (buffer2.getLastD 0 = 255 ∨ buffer2.getLastD 0 = 10) then
    Sum.inl ⟨Outcome.line buffer2.dropLast, log2, ra1, live,
      safe2 && decide (buffer2.length - 1 < cap1)⟩
  else
    Sum.inr (ob2, al1, stream2, buffer2, cap1, written2, log2, ra1, live, safe2)

/-- One iteration of the `while (TRUE)` loop of `read_line`
(src/library.c lines 150-203): the realloc step, the read step and the
EOF/newline check, in source order.  `Sum.inl` is a `return` from the C
function, `Sum.inr` carries the state for the next iteration
(ob, al, stream, buffer, cap, written, reads log, reallocs, live, safe). -/
def readLineBody (C : Nat) (ob : List ReadBehavior) (al1 : List Bool)
    (stream buffer : List Nat) (cap1 written1 : Nat) (log : List (Nat × Nat))
    (ra1 live : Nat) (safe : Bool) :
    RLOut ⊕ (List ReadBehavior × List Bool × List Nat × List Nat × Nat × Nat ×
      List (Nat × Nat) × Nat × Nat × Bool) :=
  match readLineRead C ob stream buffer cap1 written1 log ra1 live safe with
  | Sum.inl out => Sum.inl out
  | Sum.inr (ob2, stream2, buffer2, written2, log2, safe2) =>
      readLineCheck cap1 al1 ob2 stream2 buffer2 written2 log2 ra1 live safe2

def readLineIter (C : Nat) (ob : List ReadBehavior) (al : List Bool)
    (stream buffer : List Nat) (cap written : Nat) (log : List (Nat × Nat))
    (ra live : Nat) (safe : Bool) :
    RLOut ⊕ (List ReadBehavior × List Bool × List Nat × List Nat × Nat × Nat ×
      List (Nat × Nat) × Nat × Nat × Bool) :=
  match reallocStep C al buffer cap written ra with
  | none =>
      -- realloc failed: free(buffer); return NULL
      Sum.inl ⟨Outcome.nullRes, log, ra, live - 1, safe⟩
  | some (al1, cap1, written1, ra1) =>
      readLineBody C ob al1 stream buffer cap1 written1 log ra1 live safe

/-- Fuel-indexed unfolding of the `read_line` loop. -/
def readLineLoop (C : Nat) : Nat → List ReadBehavior → List Bool → List Nat →
    List Nat → Nat → Nat → List (Nat × Nat) → Nat → Nat → Bool → RLOut
  | 0, _ob, _al, _stream, _buffer, _cap, _written, log, ra, live, safe =>
      ⟨Outcome.outOfFuel, log, ra, live, safe⟩
  | fuel + 1, ob, al, stream, buffer, cap, written, log, ra, live, safe =>
      match readLineIter C ob al stream buffer cap written log ra live safe with
      | Sum.inl out => out
      | Sum.inr (ob2, al2, stream2, buffer2, cap2, written2, log2, ra2, live2, safe2) =>
          readLineLoop C fuel ob2 al2 stream2 buffer2 cap2 written2 log2 ra2 live2 safe2

/-- Embedding of `read_line()` (src/library.c lines 130-204), with chunk size
`C`, a read oracle, an allocation oracle and an input stream. -/
def read_line (C fuel : Nat) (ob : List ReadBehavior) (al : List Bool)
    (stream : List Nat) : RLOut :=
  -- char *buffer = malloc(C + 1); if (buffer == NULL) return NULL;
  if alOk al then
    readLineLoop C fuel ob (alRest al) stream [] (C + 1) 0 [] 0 1 true
  else ⟨Outcome.nullRes, [], 0, 0, true⟩

/-- One iteration of the `while (TRUE)` loop of `raw_read_line`
(src/library.c lines 53-113): realloc step, one-byte read, the
null/EOF test on `c`, and the store of `c`.  The C variable `c` occupies the
same stack slot each iteration; when `fread_line(&c, 1)` reads 0 bytes the
source inspects `c` anyway, so the model keeps the previous value of the slot
(`c` parameter; initially the caller-supplied garbage `cInit`).  Note the
source checks only `bytes_read == -1`, never `bytes_read == 0`. -/
def rawBody (ob : List ReadBehavior) (al1 : List Bool)
    (stream : List Nat) (c : Nat) (buffer : List Nat) (cap1 written1 ra1 live : Nat)
    (safe : Bool) :
    RLOut ⊕ (List ReadBehavior × List Bool × List Nat × Nat × List Nat × Nat ×
      Nat × Nat × Nat × Bool) :=
  -- char c; ssize_t bytes_read = fread_line(&c, 1);
  match freadRes ob stream.length 1 with
  | none =>
      -- bytes_read == -1: free(buffer); return NULL
      Sum.inl ⟨Outcome.nullRes, [], ra1, live - 1, safe⟩
  | some d =>
    -- if (c == '\0' || c == EOF) { buffer[length] = '\0'; break; }
    if (if d = 1 then stream.headD c else c) = 0 ∨
        (if d = 1 then stream.headD c else c) = 255 then
      Sum.inl ⟨Outcome.line buffer, [], ra1, live,
        safe && decide (buffer.length < cap1)⟩
    else
      -- buffer[length] = c; written++; length++;
      Sum.inr (obRest ob, al1, stream.drop d, (if d = 1 then stream.headD c else c),
        buffer ++ [(if d = 1 then stream.headD c else c)], cap1,
        written1 + 1, ra1, live, safe && decide (buffer.length < cap1))

def rawIter (C : Nat) (ob : List ReadBehavior) (al : List Bool)
    (stream : List Nat) (c : Nat) (buffer : List Nat) (cap written ra live : Nat)
    (safe : Bool) :
    RLOut ⊕ (List ReadBehavior × List Bool × List Nat × Nat × List Nat × Nat ×
      Nat × Nat × Nat × Bool) :=
  match reallocStep C al buffer cap written ra with
  | none => Sum.inl ⟨Outcome.nullRes, [], ra, live - 1, safe⟩
  | some (al1, cap1, written1, ra1) =>
      rawBody ob al1 stream c buffer cap1 written1 ra1 live safe

/-- Fuel-indexed unfolding of the `raw_read_line` loop. -/
def rawLoop (C : Nat) : Nat → List ReadBehavior → List Bool → List Nat → Nat →
    List Nat → Nat → Nat → Nat → Nat → Bool → RLOut
  | 0, _ob, _al, _stream, _c, _buffer, _cap, _written, ra, live, safe =>
      ⟨Outcome.outOfFuel, [], ra, live, safe⟩
  | fuel + 1, ob, al, stream, c, buffer, cap, written, ra, live, safe =>
      match rawIter C ob al stream c buffer cap written ra live safe with
      | Sum.inl out => out
      | Sum.inr (ob2, al2, stream2, c2, buffer2, cap2, written2, ra2, live2, safe2) =>
          rawLoop C fuel ob2 al2 stream2 c2 buffer2 cap2 written2 ra2 live2 safe2

/-- Embedding of `raw_read_line()` (src/library.c lines 53-113). `cInit` is
the indeterminate initial content of the stack slot of `c`. -/
def raw_read_line (C fuel : Nat) (ob : List ReadBehavior) (al : List Bool)
    (stream : List Nat) (cInit : Nat) : RLOut :=
  if alOk al then
    rawLoop C fuel ob (alRest al) stream cInit [] (C + 1) 0 0 1 true
  else ⟨Outcome.nullRes, [], 0, 0, true⟩

/-- Embedding of `read_char()` (src/library.c lines 213-224): one
`fread_line(&c, 1)`; returns the byte if exactly one byte was read, `'\0'`
otherwise.  Result: (returned byte, remaining oracle, remaining stream). -/
def read_char (ob : List ReadBehavior) (stream : List Nat) :
    Nat × List ReadBehavior × List Nat :=
  match freadRes ob stream.length 1 with
  | none => (0, obRest ob, stream)
  | some d =>
      if d = 1 then (stream.headD 0, obRest ob, stream.drop 1)
      else (0, obRest ob, stream)

/-- Calling `read_char` repeatedly `n` times over a stream, with full
sequential delivery, collecting the returned bytes. -/
def readChars : Nat → List Nat → List Nat
  | 0, _ => []
  | n + 1, stream =>
      let r := read_char [] stream
      r.1 :: readChars n r.2.2

/-! ### Helper lemmas -/

lemma sub64_eq_sub (a b : Nat) (hb : b ≤ a) (ha : a < W64) : sub64 a b = a - b := by
  unfold sub64 W64 at *
  omega

lemma freadRes_le (ob : List ReadBehavior) (avail req d : Nat)
    (h : freadRes ob avail req = some d) : d ≤ req ∧ d ≤ avail := by
  unfold freadRes at h
  match ob with
  | [] => injection h with h; omega
  | ReadBehavior.err :: rest => exact absurd h (by simp)
  | ReadBehavior.deliver k :: rest => injection h with h; omega

/-! ### C1: `read_line` on a stream longer than one chunk -/

/-- Claim C1 fails on the code: with chunk size 4 and input stream
"abcdefghij" under full sequential delivery, `read_line` does not return all
ten bytes after two reallocations; it returns only the first chunk "abcd"
after a single reallocation, because the second read requests
`C - total_length = 0` bytes and the zero answer is taken for end-of-stream. -/
theorem read_line_long_stream_bug :
    (read_line 4 10 [] [] [97, 98, 99, 100, 101, 102, 103, 104, 105, 106]).outcome =
      Outcome.line [97, 98, 99, 100] ∧
    (read_line 4 10 [] [] [97, 98, 99, 100, 101, 102, 103, 104, 105, 106]).reallocs = 1 := by
  constructor
  · rfl
  · rfl

/-! ### C5: a 0xFF data byte ends the line -/

/-- Claim C5 fails on the code: the end-of-line test compares the last stored
byte (a signed `char`) with `EOF = -1`, and the real data byte `0xFF` compares
equal, so the stream "a\xFF" yields the line "a" with the `0xFF` byte consumed
as a line terminator. -/
theorem read_line_eof_alias_bug :
    (read_line 250 5 [] [] [97, 255]).outcome = Outcome.line [97] := by
  rfl

/-! ### C4: size of each issued read -/

/-- Counterexample to claim C4 as stated: with C = 4 and the ten-byte stream
"abcdefghij", the second read is issued at offset 4 requesting 0 bytes,
whereas `C - (total_length mod C) = 4 - 4 % 4 = 4 ≠ 0`. -/
theorem read_line_request_size_counterexample :
    (read_line 4 10 [] [] [97, 98, 99, 100, 101, 102, 103, 104, 105, 106]).reads =
      [(0, 4), (4, 0)] ∧ ¬(4 - 4 % 4 = 0) := by
  exact ⟨rfl, by decide⟩

/-! ### C2: divergence of `read_line` on a short read -/

/-- When an iteration neither reallocates (`written ≠ C`), nor reads
(`written ≠ 0`), nor sees a line end at the last stored byte, the loop state
is a fixpoint and the loop consumes all fuel without returning. -/
lemma readLineLoop_spin (C : Nat) (ob : List ReadBehavior) (al : List Bool)
    (stream buffer : List Nat) (cap written : Nat) (log : List (Nat × Nat))
    (ra live : Nat) (safe : Bool)
    (hw : written ≠ C) (h0 : written ≠ 0)
    (heol : ¬(buffer.length ≠ 0 ∧ (buffer.getLastD 0 = 255 ∨ buffer.getLastD 0 = 10))) :
    ∀ fuel, (readLineLoop C fuel ob al stream buffer cap written log ra live safe).outcome =
      Outcome.outOfFuel := by
  intro fuel
  induction fuel with
  | zero => rfl
  | succ n ih =>
      have hiter : readLineIter C ob al stream buffer cap written log ra live safe =
          Sum.inr (ob, al, stream, buffer, cap, written, log, ra, live, safe) := by
        unfold readLineIter readLineBody reallocStep readLineRead readLineCheck
        simp [hw, h0, heol]
        simp only [List.getLastD_eq_getLast?, ne_eq, List.length_eq_zero] at heol
        tauto
      simp only [readLineLoop, hiter]
      exact ih

/-- Claim C2 fails on the code: with C = 4 and a first `RawRead` that delivers
only 2 of the 4 requested bytes ("ab", no newline, more data remaining), every
subsequent loop iteration performs no reallocation, no read and no return
(`written = 2` is neither `0` nor `C`), so `read_line` never terminates,
whatever the fuel. -/
theorem read_line_partial_read_diverges :
    ∀ fuel, (read_line 4 fuel [ReadBehavior.deliver 2] [] [97, 98, 99, 100]).outcome =
      Outcome.outOfFuel := by
  intro fuel
  match fuel with
  | 0 => rfl
  | n + 1 =>
      have h1 : read_line 4 (n + 1) [ReadBehavior.deliver 2] [] [97, 98, 99, 100] =
          readLineLoop 4 n [] [] [99, 100] [97, 98] 5 2 [(0, 4)] 0 1 true := rfl
      rw [h1]
      exact readLineLoop_spin 4 [] [] [99, 100] [97, 98] 5 2 [(0, 4)] 0 1 true
        (by decide) (by decide) (by decide) n

/-! ### C6: divergence of `raw_read_line` at end of stream -/

/-- Once the stream is exhausted and the last value of `c` is neither the null
byte nor 255, `raw_read_line`'s loop never returns: each read delivers 0 bytes
(which the source never tests for), the stale `c` is stored again, and the
loop continues; reallocation (oracle exhausted: always successful) does not
exit either. -/
lemma rawLoop_spin (C : Nat) (c : Nat) (hc0 : c ≠ 0) (hc255 : c ≠ 255) :
    ∀ fuel buffer cap written ra live safe,
      (rawLoop C fuel [] [] [] c buffer cap written ra live safe).outcome =
        Outcome.outOfFuel := by
  intro fuel
  induction fuel with
  | zero => intro buffer cap written ra live safe; rfl
  | succ n ih =>
      intro buffer cap written ra live safe
      have hc : ¬(c = 0 ∨ c = 255) := by omega
      by_cases hw : written = C
      · have hiter : rawIter C [] [] [] c buffer cap written ra live safe =
            Sum.inr ([], [], [], c, buffer ++ [c], C + buffer.length + 1, 1, ra + 1,
              live, safe && decide (buffer.length < C + buffer.length + 1)) := by
          unfold rawIter rawBody reallocStep
          simp [hw, alOk, alRest, freadRes, obRest, hc]
        simp only [rawLoop, hiter]
        exact ih _ _ _ _ _ _
      · have hiter : rawIter C [] [] [] c buffer cap written ra live safe =
            Sum.inr ([], [], [], c, buffer ++ [c], cap, written + 1, ra,
              live, safe && decide (buffer.length < cap)) := by
          unfold rawIter rawBody reallocStep
          simp [hw, freadRes, obRest, hc]
        simp only [rawLoop, hiter]
        exact ih _ _ _ _ _ _

/-- Claim C6 fails on the code: on the finite stream "ab" (exhausted, with no
null or 255 byte), `raw_read_line` never terminates: the source never checks
`bytes_read == 0`, so after the stream runs out each iteration re-examines the
stale byte 'b' and loops, whatever the fuel. -/
theorem raw_read_line_eof_diverges :
    ∀ fuel, (raw_read_line 250 fuel [] [] [97, 98] 0).outcome = Outcome.outOfFuel := by
  intro fuel
  match fuel with
  | 0 => rfl
  | 1 => rfl
  | n + 2 =>
      have h1 : raw_read_line 250 (n + 2) [] [] [97, 98] 0 =
          rawLoop 250 n [] [] [] 98 [97, 98] 251 2 0 1 true := rfl
      rw [h1]
      exact rawLoop_spin 250 98 (by decide) (by decide) n [97, 98] 251 2 0 1 true

/-! ### C3: newline within the first chunk -/

/-- Claim C3 holds: for a stream `t ++ [10]` terminated by a newline within
the first chunk (`t.length + 1 ≤ C`), under full sequential delivery,
`read_line` returns exactly the bytes `t` preceding the newline; the newline
itself is overwritten with the terminator and is not part of the result. -/
theorem read_line_first_chunk_newline (C : Nat) (t : List Nat) (fuel : Nat)
    (hCW : C < W64) (hlen : t.length + 1 ≤ C) :
    (read_line C (fuel + 1) [] [] (t ++ [10])).outcome = Outcome.line t := by
  have hC0 : ¬((0 : Nat) = C) := by omega
  have hreq : sub64 C (List.length ([] : List Nat)) = C := by
    have h := sub64_eq_sub C 0 (Nat.zero_le C) hCW
    simpa using h
  have hC0r : ¬(C = 0) := by omega
  have hmin : min C (t.length + 1) = t.length + 1 := Nat.min_eq_right hlen
  have htake : (t ++ [10]).take (t.length + 1) = t ++ [10] := by
    have hl : t.length + 1 = (t ++ [10]).length := by simp
    rw [hl, List.take_length]
  have h0 : read_line C (fuel + 1) [] [] (t ++ [10]) =
      readLineLoop C (fuel + 1) [] [] (t ++ [10]) [] (C + 1) 0 [] 0 1 true := rfl
  rw [h0]
  simp only [readLineLoop]
  unfold readLineIter readLineBody reallocStep readLineRead readLineCheck
  rw [hreq]
  rw [if_neg hC0]
  simp [freadRes, obRest, hC0r, hmin, htake,
    List.getLastD_eq_getLast?, List.getLast?_concat, List.dropLast_concat]
/-- Witness for `read_line_first_chunk_newline`: the spec scenario "hi\n". -/
theorem read_line_first_chunk_newline_witness :
    250 < W64 ∧ ([104, 105] : List Nat).length + 1 ≤ 250 ∧
    (read_line 250 1 [] [] ([104, 105] ++ [10])).outcome = Outcome.line [104, 105] :=
  ⟨by decide, by decide, read_line_first_chunk_newline 250 [104, 105] 0 (by decide) (by decide)⟩

/-! ### Loop invariants for `read_line` and `raw_read_line` -/

/-- Exhaustive description of the realloc step's result. -/
lemma reallocStep_cases (C : Nat) (al : List Bool) (buffer : List Nat)
    (cap written ra : Nat) :
    (written = C ∧ alOk al = false ∧ reallocStep C al buffer cap written ra = none) ∨
    (written = C ∧ alOk al = true ∧ reallocStep C al buffer cap written ra =
      some (alRest al, C + buffer.length + 1, 0, ra + 1)) ∨
    (written ≠ C ∧ reallocStep C al buffer cap written ra = some (al, cap, written, ra)) := by
  unfold reallocStep
  by_cases hw : written = C
  · cases hal : alOk al
    · exact Or.inl ⟨hw, rfl, by simp [hw, hal]⟩
    · exact Or.inr (Or.inl ⟨hw, rfl, by simp [hw, hal]⟩)
  · exact Or.inr (Or.inr ⟨hw, by simp [hw]⟩)

/-- Exhaustive description of the read step's result. -/
lemma readLineRead_cases (C : Nat) (ob : List ReadBehavior) (stream buffer : List Nat)
    (cap1 written1 : Nat) (log : List (Nat × Nat)) (ra1 live : Nat) (safe : Bool) :
    (written1 ≠ 0 ∧ readLineRead C ob stream buffer cap1 written1 log ra1 live safe =
      Sum.inr (ob, stream, buffer, written1, log, safe)) ∨
    (written1 = 0 ∧ freadRes ob stream.length (sub64 C buffer.length) = none ∧
      readLineRead C ob stream buffer cap1 written1 log ra1 live safe =
        Sum.inl ⟨Outcome.nullRes, log ++ [(buffer.length, sub64 C buffer.length)],
          ra1, live - 1, safe⟩) ∨
    (written1 = 0 ∧ freadRes ob stream.length (sub64 C buffer.length) = some 0 ∧
      readLineRead C ob stream buffer cap1 written1 log ra1 live safe =
        Sum.inl ⟨Outcome.line buffer, log ++ [(buffer.length, sub64 C buffer.length)],
          ra1, live, safe && decide (buffer.length < cap1)⟩) ∨
    (∃ d, d ≠ 0 ∧ written1 = 0 ∧
      freadRes ob stream.length (sub64 C buffer.length) = some d ∧
      readLineRead C ob stream buffer cap1 written1 log ra1 live safe =
        Sum.inr (obRest ob, stream.drop d, buffer ++ stream.take d, written1 + d,
          log ++ [(buffer.length, sub64 C buffer.length)],
          safe && decide (buffer.length + d ≤ cap1))) := by
  unfold readLineRead
  by_cases hw0 : written1 = 0
  · cases hfr : freadRes ob stream.length (sub64 C buffer.length) with
    | none => exact Or.inr (Or.inl ⟨hw0, rfl, by rw [if_pos hw0]⟩)
    | some d =>
        by_cases hd : d = 0
        · subst hd
          refine Or.inr (Or.inr (Or.inl ⟨hw0, rfl, ?_⟩))
          rw [if_pos hw0]
          rfl
        · refine Or.inr (Or.inr (Or.inr ⟨d, hd, hw0, rfl, ?_⟩))
          rw [if_pos hw0]
          show (if d = 0 then _ else _) = _
          rw [if_neg hd]
  · exact Or.inl ⟨hw0, by rw [if_neg hw0]⟩

/-- Exhaustive description of the end-of-line check's result. -/
lemma readLineCheck_cases (cap1 : Nat) (al1 : List Bool) (ob2 : List ReadBehavior)
    (stream2 buffer2 : List Nat) (written2 : Nat) (log2 : List (Nat × Nat))
    (ra1 live : Nat) (safe2 : Bool) :
    ((buffer2.length ≠ 0 ∧ (buffer2.getLastD 0 = 255 ∨ buffer2.getLastD 0 = 10)) ∧
      readLineCheck cap1 al1 ob2 stream2 buffer2 written2 log2 ra1 live safe2 =
        Sum.inl ⟨Outcome.line buffer2.dropLast, log2, ra1, live,
          safe2 && decide (buffer2.length - 1 < cap1)⟩) ∨
    (¬(buffer2.length ≠ 0 ∧ (buffer2.getLastD 0 = 255 ∨ buffer2.getLastD 0 = 10)) ∧
      readLineCheck cap1 al1 ob2 stream2 buffer2 written2 log2 ra1 live safe2 =
        Sum.inr (ob2, al1, stream2, buffer2, cap1, written2, log2, ra1, live, safe2)) := by
  unfold readLineCheck
  by_cases h : buffer2.length ≠ 0 ∧ (buffer2.getLastD 0 = 255 ∨ buffer2.getLastD 0 = 10)
  · exact Or.inl ⟨h, by rw [if_pos h]⟩
  · exact Or.inr ⟨h, by rw [if_neg h]⟩
/-- Invariant transfer through the read and end-of-line stages of one
`read_line` iteration: bounded buffer, capacity at least `C + 1`, `written`
bounded by the length, one live allocation, all stores in bounds, and every
logged read issued at offset `total_length ≤ C` requesting `C - total_length`
bytes. -/
lemma readLineBody_inv (C : Nat) (hCW : C < W64) (ob : List ReadBehavior)
    (al1 : List Bool) (stream buffer : List Nat) (cap1 written1 : Nat)
    (log : List (Nat × Nat)) (ra1 : Nat)
    (h1 : buffer.length ≤ C) (h2 : C + 1 ≤ cap1) (h3 : written1 ≤ buffer.length)
    (hlog : ∀ p ∈ log, p.1 ≤ C ∧ p.2 = C - p.1) :
    (∀ out, readLineBody C ob al1 stream buffer cap1 written1 log ra1 1 true =
        Sum.inl out →
      out.safe = true ∧ (out.outcome = Outcome.nullRes → out.live = 0) ∧
        ∀ p ∈ out.reads, p.1 ≤ C ∧ p.2 = C - p.1) ∧
    (∀ ob2 al2 stream2 buffer2 cap2 written2 log2 ra2 live2 safe2,
        readLineBody C ob al1 stream buffer cap1 written1 log ra1 1 true =
          Sum.inr (ob2, al2, stream2, buffer2, cap2, written2, log2, ra2, live2, safe2) →
      buffer2.length ≤ C ∧ C + 1 ≤ cap2 ∧ written2 ≤ buffer2.length ∧ live2 = 1 ∧
        safe2 = true ∧ ∀ p ∈ log2, p.1 ≤ C ∧ p.2 = C - p.1) := by
  have hreq : sub64 C buffer.length = C - buffer.length :=
    sub64_eq_sub C buffer.length h1 hCW
  have hlog2 : ∀ p ∈ log ++ [(buffer.length, sub64 C buffer.length)],
      p.1 ≤ C ∧ p.2 = C - p.1 := by
    intro p hp
    rcases List.mem_append.mp hp with h | h
    · exact hlog p h
    · rw [List.mem_singleton.mp h]
      exact ⟨h1, by rw [hreq]⟩
  rcases readLineRead_cases C ob stream buffer cap1 written1 log ra1 1 true with
    ⟨hw1, hrr⟩ | ⟨hw1, hfr, hrr⟩ | ⟨hw1, hfr, hrr⟩ | ⟨d, hd, hw1, hfr, hrr⟩
  · -- skip the read (written != 0), go to the end-of-line check
    have hbody : readLineBody C ob al1 stream buffer cap1 written1 log ra1 1 true =
        readLineCheck cap1 al1 ob stream buffer written1 log ra1 1 true := by
      unfold readLineBody
      rw [hrr]
    rcases readLineCheck_cases cap1 al1 ob stream buffer written1 log ra1 1 true with
      ⟨hc, hck⟩ | ⟨hc, hck⟩
    · constructor
      · intro out hout
        rw [hbody, hck] at hout
        injection hout with h
        rw [h.symm]
        refine ⟨by simp [decide_eq_true_eq]; omega, by intro hcontra; simp at hcontra, ?_⟩
        exact hlog
      · intro ob2 al2 stream2 buffer2 cap2 written2 log2 ra2 live2 safe2 hout
        rw [hbody, hck] at hout
        simp at hout
    · constructor
      · intro out hout
        rw [hbody, hck] at hout
        simp at hout
      · intro ob2 al2 stream2 buffer2 cap2 written2 log2 ra2 live2 safe2 hout
        rw [hbody, hck] at hout
        injection hout with h
        simp only [Prod.mk.injEq] at h
        obtain ⟨rfl, rfl, rfl, rfl, rfl, rfl, rfl, rfl, rfl, rfl⟩ := h
        exact ⟨h1, h2, h3, rfl, rfl, hlog⟩
  · -- the read failed: free and return NULL
    have hbody : readLineBody C ob al1 stream buffer cap1 written1 log ra1 1 true =
        Sum.inl ⟨Outcome.nullRes, log ++ [(buffer.length, sub64 C buffer.length)],
          ra1, 1 - 1, true⟩ := by
      unfold readLineBody
      rw [hrr]
    constructor
    · intro out hout
      rw [hbody] at hout
      injection hout with h
      rw [h.symm]
      exact ⟨rfl, fun _ => rfl, hlog2⟩
    · intro ob2 al2 stream2 buffer2 cap2 written2 log2 ra2 live2 safe2 hout
      rw [hbody] at hout
      simp at hout
  · -- the read returned 0 bytes: terminate with the current buffer
    have hbody : readLineBody C ob al1 stream buffer cap1 written1 log ra1 1 true =
        Sum.inl ⟨Outcome.line buffer, log ++ [(buffer.length, sub64 C buffer.length)],
          ra1, 1, true && decide (buffer.length < cap1)⟩ := by
      unfold readLineBody
      rw [hrr]
    constructor
    · intro out hout
      rw [hbody] at hout
      injection hout with h
      rw [h.symm]
      refine ⟨by simp [decide_eq_true_eq]; omega, by intro hcontra; simp at hcontra, hlog2⟩
    · intro ob2 al2 stream2 buffer2 cap2 written2 log2 ra2 live2 safe2 hout
      rw [hbody] at hout
      simp at hout
  · -- the read delivered d > 0 bytes: store them, then the end-of-line check
    obtain ⟨hdreq, hdav⟩ := freadRes_le ob stream.length (sub64 C buffer.length) d hfr
    rw [hreq] at hdreq
    have hlen2 : (buffer ++ stream.take d).length = buffer.length + d := by
      simp [List.length_take]
      omega
    have hsafe2 : (true && decide (buffer.length + d ≤ cap1)) = true := by
      simp [decide_eq_true_eq]
      omega
    have hbody : readLineBody C ob al1 stream buffer cap1 written1 log ra1 1 true =
        readLineCheck cap1 al1 (obRest ob) (stream.drop d) (buffer ++ stream.take d)
          (written1 + d) (log ++ [(buffer.length, sub64 C buffer.length)]) ra1 1
          (true && decide (buffer.length + d ≤ cap1)) := by
      unfold readLineBody
      rw [hrr]
    rcases readLineCheck_cases cap1 al1 (obRest ob) (stream.drop d)
        (buffer ++ stream.take d) (written1 + d)
        (log ++ [(buffer.length, sub64 C buffer.length)]) ra1 1
        (true && decide (buffer.length + d ≤ cap1)) with ⟨hc, hck⟩ | ⟨hc, hck⟩
    · constructor
      · intro out hout
        rw [hbody, hck] at hout
        injection hout with h
        rw [h.symm]
        refine ⟨?_, by intro hcontra; simp at hcontra, hlog2⟩
        rw [hsafe2]
        simp [decide_eq_true_eq, hlen2]
        omega
      · intro ob2 al2 stream2 buffer2 cap2 written2 log2 ra2 live2 safe2 hout
        rw [hbody, hck] at hout
        simp at hout
    · constructor
      · intro out hout
        rw [hbody, hck] at hout
        simp at hout
      · intro ob2 al2 stream2 buffer2 cap2 written2 log2 ra2 live2 safe2 hout
        rw [hbody, hck] at hout
        injection hout with h
        simp only [Prod.mk.injEq] at h
        obtain ⟨rfl, rfl, rfl, rfl, rfl, rfl, rfl, rfl, rfl, rfl⟩ := h
        refine ⟨by rw [hlen2]; omega, h2, by rw [hlen2]; omega, rfl, hsafe2, hlog2⟩
/-- Invariant transfer through one complete `read_line` iteration. -/
lemma readLineIter_inv (C : Nat) (hCW : C < W64) (ob : List ReadBehavior)
    (al : List Bool) (stream buffer : List Nat) (cap written : Nat)
    (log : List (Nat × Nat)) (ra : Nat)
    (h1 : buffer.length ≤ C) (h2 : C + 1 ≤ cap) (h3 : written ≤ buffer.length)
    (hlog : ∀ p ∈ log, p.1 ≤ C ∧ p.2 = C - p.1) :
    (∀ out, readLineIter C ob al stream buffer cap written log ra 1 true =
        Sum.inl out →
      out.safe = true ∧ (out.outcome = Outcome.nullRes → out.live = 0) ∧
        ∀ p ∈ out.reads, p.1 ≤ C ∧ p.2 = C - p.1) ∧
    (∀ ob2 al2 stream2 buffer2 cap2 written2 log2 ra2 live2 safe2,
        readLineIter C ob al stream buffer cap written log ra 1 true =
          Sum.inr (ob2, al2, stream2, buffer2, cap2, written2, log2, ra2, live2, safe2) →
      buffer2.length ≤ C ∧ C + 1 ≤ cap2 ∧ written2 ≤ buffer2.length ∧ live2 = 1 ∧
        safe2 = true ∧ ∀ p ∈ log2, p.1 ≤ C ∧ p.2 = C - p.1) := by
  rcases reallocStep_cases C al buffer cap written ra with
    ⟨hw, hal, hre⟩ | ⟨hw, hal, hre⟩ | ⟨hw, hre⟩
  · -- realloc failed: free(buffer); return NULL
    have hiter : readLineIter C ob al stream buffer cap written log ra 1 true =
        Sum.inl ⟨Outcome.nullRes, log, ra, 1 - 1, true⟩ := by
      unfold readLineIter
      rw [hre]
    constructor
    · intro out hout
      rw [hiter] at hout
      injection hout with h
      rw [h.symm]
      exact ⟨rfl, fun _ => rfl, hlog⟩
    · intro ob2 al2 stream2 buffer2 cap2 written2 log2 ra2 live2 safe2 hout
      rw [hiter] at hout
      simp at hout
  · -- realloc succeeded: the capacity is now C + length + 1, written = 0
    have hiter : readLineIter C ob al stream buffer cap written log ra 1 true =
        readLineBody C ob (alRest al) stream buffer (C + buffer.length + 1) 0 log
          (ra + 1) 1 true := by
      unfold readLineIter
      rw [hre]
    obtain ⟨hinl, hinr⟩ := readLineBody_inv C hCW ob (alRest al) stream buffer
      (C + buffer.length + 1) 0 log (ra + 1) h1 (by omega) (Nat.zero_le _) hlog
    rw [hiter]
    exact ⟨hinl, hinr⟩
  · -- no realloc needed
    have hiter : readLineIter C ob al stream buffer cap written log ra 1 true =
        readLineBody C ob al stream buffer cap written log ra 1 true := by
      unfold readLineIter
      rw [hre]
    obtain ⟨hinl, hinr⟩ := readLineBody_inv C hCW ob al stream buffer cap written
      log ra h1 h2 h3 hlog
    rw [hiter]
    exact ⟨hinl, hinr⟩

/-- Invariants carried over a whole fuel-bounded run of the `read_line` loop:
every store is in bounds, a NULL return has freed the single allocation, and
every logged read was issued at offset `total_length ≤ C` requesting exactly
`C - total_length` bytes. -/
lemma readLineLoop_inv (C : Nat) (hCW : C < W64) :
    ∀ (fuel : Nat) (ob : List ReadBehavior) (al : List Bool) (stream buffer : List Nat)
      (cap written : Nat) (log : List (Nat × Nat)) (ra : Nat),
      buffer.length ≤ C → C + 1 ≤ cap → written ≤ buffer.length →
      (∀ p ∈ log, p.1 ≤ C ∧ p.2 = C - p.1) →
      (readLineLoop C fuel ob al stream buffer cap written log ra 1 true).safe = true ∧
      ((readLineLoop C fuel ob al stream buffer cap written log ra 1 true).outcome =
          Outcome.nullRes →
        (readLineLoop C fuel ob al stream buffer cap written log ra 1 true).live = 0) ∧
      (∀ p ∈ (readLineLoop C fuel ob al stream buffer cap written log ra 1 true).reads,
        p.1 ≤ C ∧ p.2 = C - p.1) := by
  intro fuel
  induction fuel with
  | zero =>
      intro ob al stream buffer cap written log ra h1 h2 h3 hlog
      exact ⟨rfl, by intro h; simp [readLineLoop] at h, hlog⟩
  | succ n ih =>
      intro ob al stream buffer cap written log ra h1 h2 h3 hlog
      obtain ⟨hinl, hinr⟩ :=
        readLineIter_inv C hCW ob al stream buffer cap written log ra h1 h2 h3 hlog
      cases hiter : readLineIter C ob al stream buffer cap written log ra 1 true with
      | inl out =>
          have hloop : readLineLoop C (n + 1) ob al stream buffer cap written log ra 1 true =
              out := by
            simp only [readLineLoop, hiter]
          rw [hloop]
          exact hinl out hiter
      | inr st =>
          obtain ⟨ob2, al2, stream2, buffer2, cap2, written2, log2, ra2, live2, safe2⟩ := st
          have hloop : readLineLoop C (n + 1) ob al stream buffer cap written log ra 1 true =
              readLineLoop C n ob2 al2 stream2 buffer2 cap2 written2 log2 ra2 live2 safe2 := by
            simp only [readLineLoop, hiter]
          obtain ⟨hb1, hb2, hb3, hlive, hsafe2, hlog2⟩ :=
            hinr ob2 al2 stream2 buffer2 cap2 written2 log2 ra2 live2 safe2 hiter
          rw [hloop, hlive, hsafe2]
          exact ih ob2 al2 stream2 buffer2 cap2 written2 log2 ra2 hb1 hb2 hb3 hlog2
/-- Exhaustive description of the read-and-test stage of `raw_read_line`. -/
lemma rawBody_cases (ob : List ReadBehavior) (al1 : List Bool) (stream : List Nat)
    (c : Nat) (buffer : List Nat) (cap1 written1 ra1 live : Nat) (safe : Bool) :
    (freadRes ob stream.length 1 = none ∧
      rawBody ob al1 stream c buffer cap1 written1 ra1 live safe =
        Sum.inl ⟨Outcome.nullRes, [], ra1, live - 1, safe⟩) ∨
    (∃ d, freadRes ob stream.length 1 = some d ∧
      (((if d = 1 then stream.headD c else c) = 0 ∨
          (if d = 1 then stream.headD c else c) = 255) ∧
        rawBody ob al1 stream c buffer cap1 written1 ra1 live safe =
          Sum.inl ⟨Outcome.line buffer, [], ra1, live,
            safe && decide (buffer.length < cap1)⟩ ∨
       ¬((if d = 1 then stream.headD c else c) = 0 ∨
          (if d = 1 then stream.headD c else c) = 255) ∧
        rawBody ob al1 stream c buffer cap1 written1 ra1 live safe =
          Sum.inr (obRest ob, al1, stream.drop d, (if d = 1 then stream.headD c else c),
            buffer ++ [(if d = 1 then stream.headD c else c)], cap1,
            written1 + 1, ra1, live, safe && decide (buffer.length < cap1)))) := by
  cases hfr : freadRes ob stream.length 1 with
  | none => exact Or.inl ⟨rfl, by unfold rawBody; rw [hfr]⟩
  | some d =>
      by_cases hb : (if d = 1 then stream.headD c else c) = 0 ∨
          (if d = 1 then stream.headD c else c) = 255
      · refine Or.inr ⟨d, rfl, Or.inl ⟨hb, ?_⟩⟩
        unfold rawBody
        rw [hfr]
        show (if (if d = 1 then stream.headD c else c) = 0 ∨
            (if d = 1 then stream.headD c else c) = 255 then _ else _) = _
        rw [if_pos hb]
      · refine Or.inr ⟨d, rfl, Or.inr ⟨hb, ?_⟩⟩
        unfold rawBody
        rw [hfr]
        show (if (if d = 1 then stream.headD c else c) = 0 ∨
            (if d = 1 then stream.headD c else c) = 255 then _ else _) = _
        rw [if_neg hb]

/-- Invariant transfer through the read-and-test stage of `raw_read_line`:
`written < C` bounded by the window, capacity exactly
`length - written + C + 1`, one live allocation, stores in bounds. -/
lemma rawBody_inv (C : Nat) (ob : List ReadBehavior) (al1 : List Bool)
    (stream : List Nat) (c : Nat) (buffer : List Nat) (cap1 written1 ra1 : Nat)
    (hlt : written1 < C) (hq2 : written1 ≤ buffer.length)
    (hq3 : cap1 = buffer.length - written1 + C + 1) :
    (∀ out, rawBody ob al1 stream c buffer cap1 written1 ra1 1 true = Sum.inl out →
        out.safe = true ∧ (out.outcome = Outcome.nullRes → out.live = 0)) ∧
    (∀ ob2 al2 stream2 c2 buffer2 cap2 written2 ra2 live2 safe2,
        rawBody ob al1 stream c buffer cap1 written1 ra1 1 true =
          Sum.inr (ob2, al2, stream2, c2, buffer2, cap2, written2, ra2, live2, safe2) →
        written2 ≤ C ∧ written2 ≤ buffer2.length ∧
          cap2 = buffer2.length - written2 + C + 1 ∧ live2 = 1 ∧ safe2 = true) := by
  have hsafe : (true && decide (buffer.length < cap1)) = true := by
    simp [decide_eq_true_eq]
    omega
  rcases rawBody_cases ob al1 stream c buffer cap1 written1 ra1 1 true with
    ⟨hfr, hbd⟩ | ⟨d, hfr, ⟨hb, hbd⟩ | ⟨hb, hbd⟩⟩
  · constructor
    · intro out hout
      rw [hbd] at hout
      injection hout with h
      rw [h.symm]
      exact ⟨rfl, fun _ => rfl⟩
    · intro ob2 al2 stream2 c2 buffer2 cap2 written2 ra2 live2 safe2 hout
      rw [hbd] at hout
      simp at hout
  · constructor
    · intro out hout
      rw [hbd] at hout
      injection hout with h
      rw [h.symm]
      exact ⟨hsafe, by intro hcontra; simp at hcontra⟩
    · intro ob2 al2 stream2 c2 buffer2 cap2 written2 ra2 live2 safe2 hout
      rw [hbd] at hout
      simp at hout
  · constructor
    · intro out hout
      rw [hbd] at hout
      simp at hout
    · intro ob2 al2 stream2 c2 buffer2 cap2 written2 ra2 live2 safe2 hout
      rw [hbd] at hout
      injection hout with h
      simp only [Prod.mk.injEq] at h
      obtain ⟨rfl, rfl, rfl, rfl, rfl, rfl, rfl, rfl, rfl, rfl⟩ := h
      refine ⟨by omega, by simp; omega, by simp; omega, rfl, hsafe⟩

/-- Invariant transfer through one complete `raw_read_line` iteration. -/
lemma rawIter_inv (C : Nat) (hC : 0 < C) (ob : List ReadBehavior) (al : List Bool)
    (stream : List Nat) (c : Nat) (buffer : List Nat) (cap written ra : Nat)
    (hq1 : written ≤ C) (hq2 : written ≤ buffer.length)
    (hq3 : cap = buffer.length - written + C + 1) :
    (∀ out, rawIter C ob al stream c buffer cap written ra 1 true = Sum.inl out →
        out.safe = true ∧ (out.outcome = Outcome.nullRes → out.live = 0)) ∧
    (∀ ob2 al2 stream2 c2 buffer2 cap2 written2 ra2 live2 safe2,
        rawIter C ob al stream c buffer cap written ra 1 true =
          Sum.inr (ob2, al2, stream2, c2, buffer2, cap2, written2, ra2, live2, safe2) →
        written2 ≤ C ∧ written2 ≤ buffer2.length ∧
          cap2 = buffer2.length - written2 + C + 1 ∧ live2 = 1 ∧ safe2 = true) := by
  rcases reallocStep_cases C al buffer cap written ra with
    ⟨hw, hal, hre⟩ | ⟨hw, hal, hre⟩ | ⟨hw, hre⟩
  · have hiter : rawIter C ob al stream c buffer cap written ra 1 true =
        Sum.inl ⟨Outcome.nullRes, [], ra, 1 - 1, true⟩ := by
      unfold rawIter
      rw [hre]
    constructor
    · intro out hout
      rw [hiter] at hout
      injection hout with h
      rw [h.symm]
      exact ⟨rfl, fun _ => rfl⟩
    · intro ob2 al2 stream2 c2 buffer2 cap2 written2 ra2 live2 safe2 hout
      rw [hiter] at hout
      simp at hout
  · have hiter : rawIter C ob al stream c buffer cap written ra 1 true =
        rawBody ob (alRest al) stream c buffer (C + buffer.length + 1) 0 (ra + 1)
          1 true := by
      unfold rawIter
      rw [hre]
    rw [hiter]
    exact rawBody_inv C ob (alRest al) stream c buffer (C + buffer.length + 1) 0
      (ra + 1) hC (Nat.zero_le _) (by omega)
  · have hiter : rawIter C ob al stream c buffer cap written ra 1 true =
        rawBody ob al stream c buffer cap written ra 1 true := by
      unfold rawIter
      rw [hre]
    rw [hiter]
    exact rawBody_inv C ob al stream c buffer cap written ra (by omega) hq2 hq3

/-- Invariants carried over a whole fuel-bounded run of the `raw_read_line`
loop: every store is in bounds and a NULL return has freed the allocation. -/
lemma rawLoop_inv (C : Nat) (hC : 0 < C) :
    ∀ (fuel : Nat) (ob : List ReadBehavior) (al : List Bool) (stream : List Nat)
      (c : Nat) (buffer : List Nat) (cap written ra : Nat),
      written ≤ C → written ≤ buffer.length →
      cap = buffer.length - written + C + 1 →
      (rawLoop C fuel ob al stream c buffer cap written ra 1 true).safe = true ∧
      ((rawLoop C fuel ob al stream c buffer cap written ra 1 true).outcome =
          Outcome.nullRes →
        (rawLoop C fuel ob al stream c buffer cap written ra 1 true).live = 0) := by
  intro fuel
  induction fuel with
  | zero =>
      intro ob al stream c buffer cap written ra hq1 hq2 hq3
      exact ⟨rfl, by intro h; simp [rawLoop] at h⟩
  | succ n ih =>
      intro ob al stream c buffer cap written ra hq1 hq2 hq3
      obtain ⟨hinl, hinr⟩ :=
        rawIter_inv C hC ob al stream c buffer cap written ra hq1 hq2 hq3
      cases hiter : rawIter C ob al stream c buffer cap written ra 1 true with
      | inl out =>
          have hloop : rawLoop C (n + 1) ob al stream c buffer cap written ra 1 true =
              out := by
            simp only [rawLoop, hiter]
          rw [hloop]
          exact hinl out hiter
      | inr st =>
          obtain ⟨ob2, al2, stream2, c2, buffer2, cap2, written2, ra2, live2, safe2⟩ := st
          have hloop : rawLoop C (n + 1) ob al stream c buffer cap written ra 1 true =
              rawLoop C n ob2 al2 stream2 c2 buffer2 cap2 written2 ra2 live2 safe2 := by
            simp only [rawLoop, hiter]
          obtain ⟨hb1, hb2, hb3, hlive, hsafe2⟩ :=
            hinr ob2 al2 stream2 c2 buffer2 cap2 written2 ra2 live2 safe2 hiter
          rw [hloop, hlive, hsafe2]
          exact ih ob2 al2 stream2 c2 buffer2 cap2 written2 ra2 hb1 hb2 hb3
/-- One iteration of `raw_read_line` on a nonempty stream with the default
oracles: it always reads exactly the head byte `x`; if `x` is the null byte or
255 it returns the buffer unchanged, otherwise it appends `x` and continues
with the window invariants preserved. -/
lemma rawIter_consume (C : Nat) (hC : 0 < C) (x : Nat) (rest' : List Nat)
    (c : Nat) (buffer : List Nat) (cap written ra : Nat) (safe : Bool)
    (hq1 : written ≤ C) (hq2 : written ≤ buffer.length)
    (hq3 : cap = buffer.length - written + C + 1) :
    ((x = 0 ∨ x = 255) → ∃ ra2 safe2,
        rawIter C [] [] (x :: rest') c buffer cap written ra 1 safe =
          Sum.inl ⟨Outcome.line buffer, [], ra2, 1, safe2⟩) ∧
    (¬(x = 0 ∨ x = 255) → ∃ cap2 written2 ra2 safe2,
        rawIter C [] [] (x :: rest') c buffer cap written ra 1 safe =
          Sum.inr ([], [], rest', x, buffer ++ [x], cap2, written2, ra2, 1, safe2) ∧
        written2 ≤ C ∧ written2 ≤ buffer.length + 1 ∧
        cap2 = (buffer.length + 1) - written2 + C + 1) := by
  have hav : (1 : Nat) ≤ (x :: rest').length := by simp
  have hfr : freadRes [] (x :: rest').length 1 = some 1 := by
    unfold freadRes
    rw [Nat.min_eq_left hav]
  have hc2 : (if (1 : Nat) = 1 then (x :: rest').headD c else c) = x := by simp
  rcases reallocStep_cases C [] buffer cap written ra with
    ⟨_, hal, _⟩ | ⟨hw, hal, hre⟩ | ⟨hw, hre⟩
  · simp [alOk] at hal
  · -- the window was full: realloc, then read
    have hiter : rawIter C [] [] (x :: rest') c buffer cap written ra 1 safe =
        rawBody [] (alRest []) (x :: rest') c buffer (C + buffer.length + 1) 0
          (ra + 1) 1 safe := by
      unfold rawIter
      rw [hre]
    rcases rawBody_cases [] (alRest []) (x :: rest') c buffer (C + buffer.length + 1)
        0 (ra + 1) 1 safe with ⟨hfr2, _⟩ | ⟨d, hfr2, hcase⟩
    · rw [hfr] at hfr2
      simp at hfr2
    · rw [hfr] at hfr2
      injection hfr2 with hd
      subst hd
      constructor
      · intro hx
        rcases hcase with ⟨hb, hbd⟩ | ⟨hb, hbd⟩
        · exact ⟨ra + 1, safe && decide (buffer.length < C + buffer.length + 1),
            by rw [hiter, hbd]⟩
        · rw [hc2] at hb
          exact absurd hx hb
      · intro hx
        rcases hcase with ⟨hb, hbd⟩ | ⟨hb, hbd⟩
        · rw [hc2] at hb
          exact absurd hb hx
        · rw [hc2] at hbd
          refine ⟨C + buffer.length + 1, 1, ra + 1,
            safe && decide (buffer.length < C + buffer.length + 1), ?_,
            by omega, by omega, by omega⟩
          rw [hiter, hbd]
          rfl
  · -- no realloc needed
    have hiter : rawIter C [] [] (x :: rest') c buffer cap written ra 1 safe =
        rawBody [] [] (x :: rest') c buffer cap written ra 1 safe := by
      unfold rawIter
      rw [hre]
    rcases rawBody_cases [] [] (x :: rest') c buffer cap written ra 1 safe with
      ⟨hfr2, _⟩ | ⟨d, hfr2, hcase⟩
    · rw [hfr] at hfr2
      simp at hfr2
    · rw [hfr] at hfr2
      injection hfr2 with hd
      subst hd
      constructor
      · intro hx
        rcases hcase with ⟨hb, hbd⟩ | ⟨hb, hbd⟩
        · exact ⟨ra, safe && decide (buffer.length < cap), by rw [hiter, hbd]⟩
        · rw [hc2] at hb
          exact absurd hx hb
      · intro hx
        rcases hcase with ⟨hb, hbd⟩ | ⟨hb, hbd⟩
        · rw [hc2] at hb
          exact absurd hb hx
        · rw [hc2] at hbd
          refine ⟨cap, written + 1, ra, safe && decide (buffer.length < cap), ?_,
            by omega, by omega, by omega⟩
          rw [hiter, hbd]
          rfl

/-- Running the `raw_read_line` loop with the default oracles over a stream
`pre ++ b :: rest` where no byte of `pre` is a terminator and `b` is one:
the loop consumes exactly `pre`, appends it to the buffer, and stops at `b`. -/
lemma rawLoop_run (C : Nat) (hC : 0 < C) :
    ∀ (pre : List Nat) (b : Nat) (rest : List Nat) (fuel : Nat) (c : Nat)
      (buffer : List Nat) (cap written ra : Nat) (safe : Bool),
      (∀ x ∈ pre, x ≠ 0 ∧ x ≠ 255) → (b = 0 ∨ b = 255) →
      written ≤ C → written ≤ buffer.length →
      cap = buffer.length - written + C + 1 →
      pre.length < fuel →
      (rawLoop C fuel [] [] (pre ++ b :: rest) c buffer cap written ra 1 safe).outcome =
        Outcome.line (buffer ++ pre) := by
  intro pre
  induction pre with
  | nil =>
      intro b rest fuel c buffer cap written ra safe hpre hb hq1 hq2 hq3 hfuel
      cases fuel with
      | zero => omega
      | succ n =>
          obtain ⟨hterm, _⟩ :=
            rawIter_consume C hC b rest c buffer cap written ra safe hq1 hq2 hq3
          obtain ⟨ra2, safe2, hiter⟩ := hterm hb
          have hloop : rawLoop C (n + 1) [] [] ([] ++ b :: rest) c buffer cap written
              ra 1 safe = ⟨Outcome.line buffer, [], ra2, 1, safe2⟩ := by
            simp only [List.nil_append]
            simp only [rawLoop, hiter]
          rw [hloop]
          simp
  | cons x pre2 ih =>
      intro b rest fuel c buffer cap written ra safe hpre hb hq1 hq2 hq3 hfuel
      cases fuel with
      | zero => simp at hfuel
      | succ n =>
          have hx := hpre x (List.mem_cons_self x pre2)
          have hnb : ¬(x = 0 ∨ x = 255) := by tauto
          obtain ⟨_, hcont⟩ :=
            rawIter_consume C hC x (pre2 ++ b :: rest) c buffer cap written ra safe
              hq1 hq2 hq3
          obtain ⟨cap2, written2, ra2, safe2, hiter, hw2, hl2, hcap2⟩ := hcont hnb
          have hloop : rawLoop C (n + 1) [] [] ((x :: pre2) ++ b :: rest) c buffer cap
              written ra 1 safe =
              rawLoop C n [] [] (pre2 ++ b :: rest) x (buffer ++ [x]) cap2 written2
                ra2 1 safe2 := by
            simp only [List.cons_append]
            simp only [rawLoop, hiter]
          rw [hloop]
          have hrun := ih b rest n x (buffer ++ [x]) cap2 written2 ra2 safe2
            (fun y hy => hpre y (List.mem_cons_of_mem x hy)) hb hw2
            (by simp; omega) (by simp; omega) (by simp at hfuel ⊢; omega)
          rw [hrun]
          simp

/-! ### C8: `raw_read_line` stops exactly at the first null/255 byte -/

/-- Claim C8 holds: with the default sequential oracle, `raw_read_line` on a
stream `pre ++ b :: rest` whose bytes `pre` are all neither null nor 255 and
whose next byte `b` is one of those two stops exactly at `b` and returns
`pre`; newline bytes inside `pre` are stored like any other byte and never
terminate the function. -/
theorem raw_read_line_stops_at_terminator (C : Nat) (pre : List Nat) (b : Nat)
    (rest : List Nat) (fuel cInit : Nat) (hC : 0 < C)
    (hpre : ∀ x ∈ pre, x ≠ 0 ∧ x ≠ 255) (hb : b = 0 ∨ b = 255)
    (hfuel : pre.length < fuel) :
    (raw_read_line C fuel [] [] (pre ++ b :: rest) cInit).outcome =
      Outcome.line pre := by
  have h0 : raw_read_line C fuel [] [] (pre ++ b :: rest) cInit =
      rawLoop C fuel [] [] (pre ++ b :: rest) cInit [] (C + 1) 0 0 1 true := rfl
  rw [h0]
  have hrun := rawLoop_run C hC pre b rest fuel cInit [] (C + 1) 0 0 true hpre hb
    (Nat.zero_le _) (Nat.zero_le _) (by simp) hfuel
  simpa using hrun

/-- Witness for `raw_read_line_stops_at_terminator`: the line "hi\nj" (with an
embedded newline, stored like any byte) followed by a null byte. -/
theorem raw_read_line_stops_at_terminator_witness :
    0 < 250 ∧
    (raw_read_line 250 5 [] [] ([104, 105, 10, 106] ++ 0 :: [42]) 7).outcome =
      Outcome.line [104, 105, 10, 106] :=
  ⟨by decide,
   raw_read_line_stops_at_terminator 250 [104, 105, 10, 106] 0 [42] 5 7 (by decide)
     (by decide) (Or.inl rfl) (by decide)⟩
/-! ### C4 (amended): every issued read -/

/-- Amended claim C4: every `RawRead` issued by `read_line` is written into the
buffer at offset `total_length` and requests exactly `C - total_length` bytes
(`total_length ≤ C` holds whenever a read is issued).  This agrees with the
claimed `C - (total_length mod C)` whenever `total_length < C`, but when
`total_length = C` the code requests `0` bytes, not `C`. -/
theorem read_line_request_size_amended (C fuel : Nat) (ob : List ReadBehavior)
    (al : List Bool) (stream : List Nat) (p : Nat × Nat) (hCW : C < W64)
    (hp : p ∈ (read_line C fuel ob al stream).reads) :
    p.1 ≤ C ∧ p.2 = C - p.1 := by
  unfold read_line at hp
  cases hal : alOk al
  · rw [hal] at hp
    simp at hp
  · rw [hal] at hp
    simp at hp
    exact (readLineLoop_inv C hCW fuel ob (alRest al) stream [] (C + 1) 0 [] 0
      (by simp) (by omega) (by simp) (by simp)).2.2 p hp

/-- Witness for `read_line_request_size_amended`: the single read of a short
run is issued at offset 0 requesting `C = 4` bytes. -/
theorem read_line_request_size_amended_witness :
    (0, 4) ∈ (read_line 4 1 [] [] [97]).reads ∧ ((0, 4).1 ≤ 4 ∧ (0, 4).2 = 4 - (0, 4).1) :=
  ⟨by decide, read_line_request_size_amended 4 1 [] [] [97] (0, 4) (by decide) (by decide)⟩

/-! ### C7: all memory freed on the failure paths -/

/-- Claim C7 holds: whenever `read_line` or `raw_read_line` returns the NULL
failure signal (allocation, reallocation or read failure), the number of live
heap blocks of the call is 0: the sole buffer was freed before returning, and
no partial buffer escapes. -/
theorem line_readers_free_on_failure (C fuel : Nat) (ob : List ReadBehavior)
    (al : List Bool) (stream : List Nat) (cInit : Nat) (hC : 0 < C)
    (hCW : C < W64) :
    ((read_line C fuel ob al stream).outcome = Outcome.nullRes →
      (read_line C fuel ob al stream).live = 0) ∧
    ((raw_read_line C fuel ob al stream cInit).outcome = Outcome.nullRes →
      (raw_read_line C fuel ob al stream cInit).live = 0) := by
  constructor
  · unfold read_line
    cases hal : alOk al
    · simp
    · simp only [if_pos rfl]
      exact (readLineLoop_inv C hCW fuel ob (alRest al) stream [] (C + 1) 0 [] 0
        (by simp) (by omega) (by simp) (by simp)).2.1
  · unfold raw_read_line
    cases hal : alOk al
    · simp
    · simp only [if_pos rfl]
      exact (rawLoop_inv C hC fuel ob (alRest al) stream cInit [] (C + 1) 0 0
        (Nat.zero_le _) (Nat.zero_le _) (by simp)).2

/-- Witness for `line_readers_free_on_failure`: a reallocation failure during
`read_line` (C = 2, second allocation refused) and a read failure during
`raw_read_line`; both return NULL with zero live blocks. -/
theorem line_readers_free_on_failure_witness :
    (read_line 2 5 [] [true, false] [97, 98, 99]).live = 0 ∧
    (raw_read_line 250 5 [ReadBehavior.err] [] [97] 0).live = 0 :=
  ⟨(line_readers_free_on_failure 2 5 [] [true, false] [97, 98, 99] 0 (by decide)
      (by decide)).1 rfl,
   (line_readers_free_on_failure 250 5 [ReadBehavior.err] [] [97] 0 (by decide)
      (by decide)).2 rfl⟩

/-! ### C9: the buffer invariant keeps every store in bounds -/

/-- Claim C9 holds: throughout every execution of `read_line` and
`raw_read_line` — for any chunk size `0 < C < 2^64`, any fuel, any read and
allocation oracles and any stream — every store into the buffer (content
bytes at index `length` and terminator bytes) is within the current
allocation, as recorded by the `safe` in-bounds flag. -/
theorem line_readers_writes_in_bounds (C fuel : Nat) (ob : List ReadBehavior)
    (al : List Bool) (stream : List Nat) (cInit : Nat) (hC : 0 < C)
    (hCW : C < W64) :
    (read_line C fuel ob al stream).safe = true ∧
    (raw_read_line C fuel ob al stream cInit).safe = true := by
  constructor
  · unfold read_line
    cases hal : alOk al
    · simp
    · simp only [if_pos rfl]
      exact (readLineLoop_inv C hCW fuel ob (alRest al) stream [] (C + 1) 0 [] 0
        (by simp) (by omega) (by simp) (by simp)).1
  · unfold raw_read_line
    cases hal : alOk al
    · simp
    · simp only [if_pos rfl]
      exact (rawLoop_inv C hC fuel ob (alRest al) stream cInit [] (C + 1) 0 0
        (Nat.zero_le _) (Nat.zero_le _) (by simp)).1

/-- Witness for `line_readers_writes_in_bounds` at C = 250 on "hi\n". -/
theorem line_readers_writes_in_bounds_witness :
    (read_line 250 2 [] [] [104, 105, 10]).safe = true ∧
    (raw_read_line 250 2 [] [] [104, 105, 10] 0).safe = true :=
  ⟨(line_readers_writes_in_bounds 250 2 [] [] [104, 105, 10] 0 (by decide)
      (by decide)).1,
   (line_readers_writes_in_bounds 250 2 [] [] [104, 105, 10] 0 (by decide)
      (by decide)).2⟩

/-! ### C10: `read_char` -/

/-- Claim C10 holds: `read_char` returns the byte read when the raw read
delivers exactly one byte, and the sentinel null byte when it delivers zero
bytes or fails; iterated with full sequential delivery it returns every
stream byte in order and then the null byte on each further call. -/
theorem read_char_spec :
    (∀ (b : Nat) (rest : List Nat) (ob : List ReadBehavior),
      read_char (ReadBehavior.deliver 1 :: ob) (b :: rest) = (b, ob, rest)) ∧
    (∀ (ob : List ReadBehavior) (stream : List Nat),
      read_char (ReadBehavior.err :: ob) stream = (0, ob, stream)) ∧
    (∀ (ob : List ReadBehavior) (stream : List Nat),
      read_char (ReadBehavior.deliver 0 :: ob) stream = (0, ob, stream)) ∧
    (∀ (stream : List Nat) (n : Nat),
      readChars (stream.length + n) stream = stream ++ List.replicate n 0) := by
  refine ⟨?_, ?_, ?_, ?_⟩
  · intro b rest ob
    unfold read_char freadRes obRest
    simp
  · intro ob stream
    unfold read_char freadRes obRest
    simp
  · intro ob stream
    unfold read_char freadRes obRest
    simp
  · intro stream
    induction stream with
    | nil =>
        intro n
        simp only [List.length_nil, List.nil_append, Nat.zero_add]
        induction n with
        | zero => rfl
        | succ m ihm =>
            have hrc0 : read_char [] ([] : List Nat) = (0, [], []) := rfl
            have h1 : readChars (m + 1) ([] : List Nat) = 0 :: readChars m [] := by
              simp only [readChars]
              rw [hrc0]
            rw [h1, ihm]
            simp [List.replicate_succ]
    | cons b rest ih =>
        intro n
        have hmin : min 1 ((b :: rest).length) = 1 := by
          simp only [List.length_cons]
          omega
        have hrc : read_char [] (b :: rest) = (b, [], rest) := by
          unfold read_char freadRes obRest
          rw [hmin]
          rfl
        have hl : (b :: rest).length + n = (rest.length + n) + 1 := by
          simp only [List.length_cons]
          omega
        rw [hl]
        have h1 : readChars ((rest.length + n) + 1) (b :: rest) =
            b :: readChars (rest.length + n) rest := by
          simp only [readChars]
          rw [hrc]
        rw [h1, ih n]
        simp
end Stdi
